import Mathlib

/-!
Verification of the cooperative software timer registry (`timer.c`,
`timer_internal.c`).  The C code keeps a global `TimerSystem*` holding a
singly linked list of `Timer` records, a `next_id` counter (`uint32_t`,
starting at 1) and a `running` flag.  We embed it shallowly:

* the linked list becomes a `List Timer` (head insertion = `List.cons`);
* the global pointer becomes `Option TimerSystem` (`none` = `NULL`);
* `uint32_t` values become `Nat`; the only arithmetic that can wrap is
  `next_id++`, which we model with an explicit `% 2^32`; the subtraction
  `remaining -= elapsed` is guarded by `remaining > elapsed` in the source,
  so `Nat` subtraction agrees with the machine subtraction there;
* the callback function pointer and its `void* arg` become opaque numeric
  codes (`0` plays the role of `NULL`); invoking a callback is modelled as
  emitting the id of the timer whose callback ran, so `timer_update`
  additionally returns the list of fired timer ids in invocation order;
* `malloc` is assumed to succeed (allocation failure is an environment
  event, not program logic).

For the traversal-safety claim we additionally embed the list at the
pointer level: an address-indexed heap of nodes with explicit `next`
pointers and the `prev`/`current` unlinking loop of `timer_update`.
-/

/-- The `TimerState` enum of `timer.h`. -/
inductive TimerState where
  | TIMER_IDLE
  | TIMER_RUNNING
  | TIMER_PAUSED
  | TIMER_COMPLETED
deriving DecidableEq, Repr

open TimerState

/-- The `Timer` struct of `timer.h`, minus the intrusive `next` pointer
(list order carries the links).  `callback` and `arg` are opaque codes;
`callback = 0` models a `NULL` function pointer. -/
structure Timer where
  id : Nat
  interval : Nat
  remaining : Nat
  rep : Bool
  state : TimerState
  callback : Nat
  arg : Nat
deriving DecidableEq, Repr

/-- The `TimerSystem` struct of `timer.h`: the timer list, the `next_id`
counter and the `running` flag. -/
structure TimerSystem where
  head : List Timer
  next_id : Nat
  running : Bool
deriving DecidableEq, Repr

/-- The global `g_timer_system` pointer: `none` models `NULL`. -/
abbrev GState := Option TimerSystem

/-- `timer_system_init` of `timer.c`: if the system already exists return
`true` and change nothing; otherwise allocate a fresh system with empty
list, `next_id = 1` and `running = true` (allocation modelled as
succeeding). -/
def timer_system_init : GState → Bool × GState
  | some s => (true, some s)
  | none => (true, some ⟨[], 1, true⟩)

/-- `timer_create` of `timer.c`.  Fails (returns 0, state unchanged) when
the system is `NULL`, the callback is `NULL` or the interval is 0.
Otherwise the new timer gets `id = next_id++` (a `uint32_t` increment,
hence the `% 2^32`), `remaining = interval`, state `TIMER_IDLE`, and is
pushed on the front of the list; the pre-increment `next_id` is returned. -/
def timer_create (interval : Nat) (callback : Nat) (arg : Nat) (rep : Bool) :
    GState → Nat × GState
  | none => (0, none)
  | some s =>
    if callback = 0 ∨ interval = 0 then
      (0, some s)
    else
      let t : Timer :=
        { id := s.next_id, interval := interval, remaining := interval,
          rep := rep, state := TIMER_IDLE, callback := callback, arg := arg }
      (s.next_id, some { s with head := t :: s.head,
                                next_id := (s.next_id + 1) % 2 ^ 32 })

/-- The list part of `timer_start`: `find_timer` (`timer_internal.c`)
returns the first node with the given id, and `timer_start` mutates that
node in place.  Returns the success flag and the updated list. -/
def timer_start_list (id : Nat) : List Timer → Bool × List Timer
  | [] => (false, [])
  | t :: ts =>
    if t.id = id then
      if t.state ≠ TIMER_RUNNING then
        (true, { t with state := TIMER_RUNNING } :: ts)
      else
        (false, t :: ts)
    else
      let r := timer_start_list id ts
      (r.1, t :: r.2)

/-- `timer_start` of `timer.c`: `false` on `NULL` system or unknown id or
already-running timer; otherwise sets the found timer's state to
`TIMER_RUNNING` and returns `true`. -/
def timer_start (id : Nat) : GState → Bool × GState
  | none => (false, none)
  | some s =>
    let r := timer_start_list id s.head
    (r.1, some { s with head := r.2 })

/-- The list part of `timer_pause`: first node with the given id; pauses it
only if it is `TIMER_RUNNING`. -/
def timer_pause_list (id : Nat) : List Timer → Bool × List Timer
  | [] => (false, [])
  | t :: ts =>
    if t.id = id then
      if t.state = TIMER_RUNNING then
        (true, { t with state := TIMER_PAUSED } :: ts)
      else
        (false, t :: ts)
    else
      let r := timer_pause_list id ts
      (r.1, t :: r.2)

/-- `timer_pause` of `timer.c`. -/
def timer_pause (id : Nat) : GState → Bool × GState
  | none => (false, none)
  | some s =>
    let r := timer_pause_list id s.head
    (r.1, some { s with head := r.2 })

/-- The list part of `timer_cancel`: unlink and free the first node with
the given id. -/
def timer_cancel_list (id : Nat) : List Timer → Bool × List Timer
  | [] => (false, [])
  | t :: ts =>
    if t.id = id then
      (true, ts)
    else
      let r := timer_cancel_list id ts
      (r.1, t :: r.2)

/-- `timer_cancel` of `timer.c`. -/
def timer_cancel (id : Nat) : GState → Bool × GState
  | none => (false, none)
  | some s =>
    let r := timer_cancel_list id s.head
    (r.1, some { s with head := r.2 })

/-- The traversal loop of `timer_update`, at the list level.  For each node
in order: if it is `TIMER_RUNNING` and `remaining <= elapsed` the callback
fires (we record the timer's id); a repeating timer is re-armed with
`remaining = interval`, a one-shot timer is unlinked and freed; a running
timer that has not expired gets `remaining -= elapsed`; any non-running
timer is left untouched.  Returns the surviving list and the fired ids in
invocation order. -/
def timer_update_list (elapsed : Nat) : List Timer → List Timer × List Nat
  | [] => ([], [])
  | t :: ts =>
    if t.state = TIMER_RUNNING then
      if t.remaining ≤ elapsed then
        let r := timer_update_list elapsed ts
        if t.rep then
          ({ t with remaining := t.interval } :: r.1, t.id :: r.2)
        else
          (r.1, t.id :: r.2)
      else
        let r := timer_update_list elapsed ts
        ({ t with remaining := t.remaining - elapsed } :: r.1, r.2)
    else
      let r := timer_update_list elapsed ts
      (t :: r.1, r.2)

/-- `timer_update` of `timer.c`: a no-op when the system is `NULL` or its
`running` flag is cleared; otherwise one pass of the loop above.  Returns
the new global state and the fired timer ids. -/
def timer_update (elapsed : Nat) : GState → GState × List Nat
  | none => (none, [])
  | some s =>
    if s.running then
      let r := timer_update_list elapsed s.head
      (some { s with head := r.1 }, r.2)
    else
      (some s, [])

/-- `timer_system_destroy` of `timer.c`: frees everything and nulls the
global pointer; a no-op on `NULL`. -/
def timer_system_destroy : GState → GState := fun _ => none

/-- `timer_count` of `timer.c`: the length of the list, 0 on `NULL`. -/
def timer_count : GState → Nat
  | none => 0
  | some s => s.head.length

/-! ### Reachable registry states -/

/-- One public call of the `timer.h` interface, with arbitrary arguments,
as a transition between global states. -/
inductive TimerStep : GState → GState → Prop where
  | init (g : GState) : TimerStep g (timer_system_init g).2
  | create (i c a : Nat) (r : Bool) (g : GState) :
      TimerStep g (timer_create i c a r g).2
  | start (id : Nat) (g : GState) : TimerStep g (timer_start id g).2
  | pause (id : Nat) (g : GState) : TimerStep g (timer_pause id g).2
  | cancel (id : Nat) (g : GState) : TimerStep g (timer_cancel id g).2
  | update (e : Nat) (g : GState) : TimerStep g (timer_update e g).1
  | destroy (g : GState) : TimerStep g (timer_system_destroy g)

/-- Global states reachable from the initial `NULL` pointer by any sequence
of public calls. -/
inductive TimerReachable : GState → Prop where
  | base : TimerReachable none
  | step {g g' : GState} : TimerReachable g → TimerStep g g' → TimerReachable g'

/-- The data invariant of an initialized system: the `running` flag is set
(no public operation ever clears it) and every registered timer has a
positive interval and a `remaining` value in `(0, interval]`. -/
def TimerInv (s : TimerSystem) : Prop :=
  s.running = true ∧
    ∀ t ∈ s.head, 0 < t.interval ∧ 0 < t.remaining ∧ t.remaining ≤ t.interval

/-! ### Pointer-level model of the `timer_update` traversal

`timer_update` in `timer.c` walks the singly linked list with a
`prev`/`current` pointer pair, saving `next = current->next` before the
body because an expired one-shot node is unlinked (rewiring `head` or
`prev->next`) and freed mid-pass.  To verify the traversal itself we model
the list at the address level: a heap of nodes indexed by address, with
explicit `next` pointers, and the loop as a fuel-indexed function that also
records the address of every node it evaluates. -/

/-- A `Timer` struct as it sits in memory: the payload plus the intrusive
`next` pointer (an address, `none` = `NULL`). -/
structure Node where
  id : Nat
  interval : Nat
  remaining : Nat
  rep : Bool
  state : TimerState
  callback : Nat
  arg : Nat
  next : Option Nat
deriving DecidableEq, Repr

/-- The heap: an association list from addresses to live nodes. -/
abbrev Heap := List (Nat × Node)

/-- Read the node at an address (`none` = dangling/freed). -/
def hlookup : Heap → Nat → Option Node
  | [], _ => none
  | (b, n) :: h, a => if b = a then some n else hlookup h a

/-- Overwrite the node at an address. -/
def hset (h : Heap) (a : Nat) (n : Node) : Heap := (a, n) :: h

/-- Free the node at an address. -/
def herase : Heap → Nat → Heap
  | [], _ => []
  | (b, n) :: h, a => if b = a then herase h a else (b, n) :: herase h a

/-- The payload of a node, as the list-level model sees it. -/
def node_timer (n : Node) : Timer :=
  ⟨n.id, n.interval, n.remaining, n.rep, n.state, n.callback, n.arg⟩

/-- `ChainT h p addrs ts`: starting from pointer `p` the heap `h` holds a
`NULL`-terminated chain of nodes whose addresses are `addrs` and whose
payloads are `ts`, in order. -/
inductive ChainT (h : Heap) : Option Nat → List Nat → List Timer → Prop where
  | nil : ChainT h none [] []
  | cons {a : Nat} {n : Node} {as : List Nat} {ts : List Timer} :
      hlookup h a = some n → ChainT h n.next as ts →
      ChainT h (some a) (a :: as) (node_timer n :: ts)

/-- The `while (current != NULL)` loop of `timer_update` (`timer.c`
lines 155–186), at the pointer level.  Arguments: fuel, heap, head pointer,
`prev`, `current`, fired callback ids so far, trace of evaluated node
addresses so far.  Each iteration saves `next := current->next`; a running
node with `remaining <= elapsed` fires: a repeating one is re-armed in
place, a one-shot one is unlinked (rewriting `head` when `prev` is `NULL`,
else `prev->next`) and freed, and `prev` is left unchanged; otherwise
`remaining -= elapsed` (running) or nothing (not running) and `prev`
advances to `current`.  Returns (heap, head, fired ids, trace). -/
def update_loop (e : Nat) :
    Nat → Heap → Option Nat → Option Nat → Option Nat → List Nat → List Nat →
      Heap × Option Nat × List Nat × List Nat
  | 0, h, hd, _, _, fs, tr => (h, hd, fs, tr)
  | _ + 1, h, hd, _, none, fs, tr => (h, hd, fs, tr)
  | fuel + 1, h, hd, prev, some c, fs, tr =>
    match hlookup h c with
    | none => (h, hd, fs, tr)
    | some node =>
      if node.state = TIMER_RUNNING then
        if node.remaining ≤ e then
          if node.rep then
            update_loop e fuel (hset h c { node with remaining := node.interval })
              hd (some c) node.next (fs ++ [node.id]) (tr ++ [c])
          else
            match prev with
            | none =>
                update_loop e fuel (herase h c) node.next none node.next
                  (fs ++ [node.id]) (tr ++ [c])
            | some p =>
                match hlookup h p with
                | some pn =>
                    update_loop e fuel
                      (herase (hset h p { pn with next := node.next }) c)
                      hd (some p) node.next (fs ++ [node.id]) (tr ++ [c])
                | none => (h, hd, fs, tr)
        else
          update_loop e fuel
            (hset h c { node with remaining := node.remaining - e })
            hd (some c) node.next fs (tr ++ [c])
      else
        update_loop e fuel h hd (some c) node.next fs (tr ++ [c])

/-! ### Iterated creation and the id allocator -/

/-- The registry state after `timer_system_init` followed by `n` valid
`timer_create` calls (interval 1, callback code 1, no argument, one-shot). -/
def createManyState (n : Nat) : GState :=
  (fun g => (timer_create 1 1 0 false g).2)^[n] (timer_system_init none).2

/-- One registry lifetime: states reachable from a fresh
`timer_system_init` without an intervening `timer_system_destroy`, paired
with the list of ids handed out by the successful `timer_create` calls so
far (most recent first).  A create is recorded exactly when it inserted a
timer, i.e. when it increased `timer_count` by 1. -/
inductive LifeReach : GState → List Nat → Prop where
  | base : LifeReach (timer_system_init none).2 []
  | init {g : GState} {ids : List Nat} :
      LifeReach g ids → LifeReach (timer_system_init g).2 ids
  | createOk {g : GState} {ids : List Nat} (i c a : Nat) (r : Bool)
      (h : timer_count (timer_create i c a r g).2 = timer_count g + 1) :
      LifeReach g ids →
      LifeReach (timer_create i c a r g).2 ((timer_create i c a r g).1 :: ids)
  | start {g : GState} {ids : List Nat} (id : Nat) :
      LifeReach g ids → LifeReach (timer_start id g).2 ids
  | pause {g : GState} {ids : List Nat} (id : Nat) :
      LifeReach g ids → LifeReach (timer_pause id g).2 ids
  | cancel {g : GState} {ids : List Nat} (id : Nat) :
      LifeReach g ids → LifeReach (timer_cancel id g).2 ids
  | update {g : GState} {ids : List Nat} (e : Nat) :
      LifeReach g ids → LifeReach (timer_update e g).1 ids

/-! ### List-level lemmas about the operations -/

theorem timer_start_list_not_found (id : Nat) (l : List Timer)
    (h : ∀ t ∈ l, t.id ≠ id) : timer_start_list id l = (false, l) := by
  induction l with
  | nil => rfl
  | cons t ts ih =>
    have ht : t.id ≠ id := h t (List.mem_cons_self t ts)
    simp only [timer_start_list, if_neg ht]
    rw [ih fun u hu => h u (List.mem_cons_of_mem t hu)]

theorem timer_start_list_found (id : Nat) (l₁ l₂ : List Timer) (t : Timer)
    (h₁ : ∀ u ∈ l₁, u.id ≠ id) (ht : t.id = id) :
    timer_start_list id (l₁ ++ t :: l₂) =
      if t.state ≠ TIMER_RUNNING then
        (true, l₁ ++ { t with state := TIMER_RUNNING } :: l₂)
      else
        (false, l₁ ++ t :: l₂) := by
  induction l₁ with
  | nil =>
    by_cases hs : t.state = TIMER_RUNNING
    · simp [timer_start_list, ht, hs]
    · simp [timer_start_list, ht, hs]
  | cons u us ih =>
    have hu : u.id ≠ id := h₁ u (List.mem_cons_self u us)
    have ih' := ih fun v hv => h₁ v (List.mem_cons_of_mem u hv)
    by_cases hs : t.state = TIMER_RUNNING
    · simp [timer_start_list, hu, ih', hs]
    · simp [timer_start_list, hu, ih', hs]

/-- `timer_update_list` treats each node independently, so it distributes
over list append. -/
theorem timer_update_list_append (e : Nat) (l₁ l₂ : List Timer) :
    timer_update_list e (l₁ ++ l₂) =
      ((timer_update_list e l₁).1 ++ (timer_update_list e l₂).1,
       (timer_update_list e l₁).2 ++ (timer_update_list e l₂).2) := by
  induction l₁ with
  | nil => simp [timer_update_list]
  | cons t ts ih =>
    by_cases hs : t.state = TIMER_RUNNING
    · by_cases hr : t.remaining ≤ e
      · by_cases hrep : t.rep = true <;>
          simp [timer_update_list, hs, hr, hrep, ih]
      · simp [timer_update_list, hs, hr, ih]
    · simp [timer_update_list, hs, ih]

theorem timer_update_list_not_running (e : Nat) (t : Timer)
    (hs : t.state ≠ TIMER_RUNNING) : timer_update_list e [t] = ([t], []) := by
  simp [timer_update_list, hs]

theorem timer_update_list_ticking (e : Nat) (t : Timer)
    (hs : t.state = TIMER_RUNNING) (hr : ¬ t.remaining ≤ e) :
    timer_update_list e [t] = ([{ t with remaining := t.remaining - e }], []) := by
  simp [timer_update_list, hs, hr]

theorem timer_update_list_fire_once (e : Nat) (t : Timer)
    (hs : t.state = TIMER_RUNNING) (hr : t.remaining ≤ e) (hrep : t.rep = false) :
    timer_update_list e [t] = ([], [t.id]) := by
  simp [timer_update_list, hs, hr, hrep]

theorem timer_update_list_fire_rearm (e : Nat) (t : Timer)
    (hs : t.state = TIMER_RUNNING) (hr : t.remaining ≤ e) (hrep : t.rep = true) :
    timer_update_list e [t] = ([{ t with remaining := t.interval }], [t.id]) := by
  simp [timer_update_list, hs, hr, hrep]

/-- Every fired id is the id of some node of the input list (one that was
running and expired). -/
theorem timer_update_list_fired_mem (e : Nat) (l : List Timer) (i : Nat)
    (h : i ∈ (timer_update_list e l).2) :
    ∃ u ∈ l, u.id = i ∧ u.state = TIMER_RUNNING ∧ u.remaining ≤ e := by
  induction l with
  | nil => simp [timer_update_list] at h
  | cons t ts ih =>
    by_cases hs : t.state = TIMER_RUNNING
    · by_cases hr : t.remaining ≤ e
      · have hh : i = t.id ∨ i ∈ (timer_update_list e ts).2 := by
          by_cases hrep : t.rep = true
          · simpa [timer_update_list, hs, hr, hrep] using h
          · simp only [Bool.not_eq_true] at hrep
            simpa [timer_update_list, hs, hr, hrep] using h
        rcases hh with h | h
        · exact ⟨t, List.mem_cons_self t ts, h.symm, hs, hr⟩
        · obtain ⟨u, hu, rest⟩ := ih h
          exact ⟨u, List.mem_cons_of_mem t hu, rest⟩
      · have hh : i ∈ (timer_update_list e ts).2 := by
          simpa [timer_update_list, hs, hr] using h
        obtain ⟨u, hu, rest⟩ := ih hh
        exact ⟨u, List.mem_cons_of_mem t hu, rest⟩
    · have hh : i ∈ (timer_update_list e ts).2 := by
        simpa [timer_update_list, hs] using h
      obtain ⟨u, hu, rest⟩ := ih hh
      exact ⟨u, List.mem_cons_of_mem t hu, rest⟩

/-- Every surviving node keeps the id of some node of the input list. -/
theorem timer_update_list_kept_mem (e : Nat) (l : List Timer) (u' : Timer)
    (h : u' ∈ (timer_update_list e l).1) : ∃ u ∈ l, u'.id = u.id := by
  induction l with
  | nil => simp [timer_update_list] at h
  | cons t ts ih =>
    by_cases hs : t.state = TIMER_RUNNING
    · by_cases hr : t.remaining ≤ e
      · by_cases hrep : t.rep = true
        · have hh : u' = { t with remaining := t.interval } ∨
              u' ∈ (timer_update_list e ts).1 := by
            simpa [timer_update_list, hs, hr, hrep] using h
          rcases hh with h | h
          · exact ⟨t, List.mem_cons_self t ts, by rw [h]⟩
          · obtain ⟨u, hu, rest⟩ := ih h
            exact ⟨u, List.mem_cons_of_mem t hu, rest⟩
        · simp only [Bool.not_eq_true] at hrep
          have hh : u' ∈ (timer_update_list e ts).1 := by
            simpa [timer_update_list, hs, hr, hrep] using h
          obtain ⟨u, hu, rest⟩ := ih hh
          exact ⟨u, List.mem_cons_of_mem t hu, rest⟩
      · have hh : u' = { t with remaining := t.remaining - e } ∨
            u' ∈ (timer_update_list e ts).1 := by
          simpa [timer_update_list, hs, hr] using h
        rcases hh with h | h
        · exact ⟨t, List.mem_cons_self t ts, by rw [h]⟩
        · obtain ⟨u, hu, rest⟩ := ih h
          exact ⟨u, List.mem_cons_of_mem t hu, rest⟩
    · have hh : u' = t ∨ u' ∈ (timer_update_list e ts).1 := by
        simpa [timer_update_list, hs] using h
      rcases hh with h | h
      · exact ⟨t, List.mem_cons_self t ts, by rw [h]⟩
      · obtain ⟨u, hu, rest⟩ := ih h
        exact ⟨u, List.mem_cons_of_mem t hu, rest⟩

/-- Splitting `timer_update_list` around one distinguished node. -/
theorem timer_update_list_middle (e : Nat) (l₁ l₂ : List Timer) (t : Timer) :
    timer_update_list e (l₁ ++ t :: l₂) =
      ((timer_update_list e l₁).1 ++
         ((timer_update_list e [t]).1 ++ (timer_update_list e l₂).1),
       (timer_update_list e l₁).2 ++
         ((timer_update_list e [t]).2 ++ (timer_update_list e l₂).2)) := by
  rw [show (t :: l₂ : List Timer) = [t] ++ l₂ from rfl,
      timer_update_list_append e l₁ ([t] ++ l₂),
      timer_update_list_append e [t] l₂]

/-- `timer_update` on an active system runs one pass of the loop. -/
theorem timer_update_active (e : Nat) (s : TimerSystem) (h : s.running = true) :
    timer_update e (some s) =
      (some { s with head := (timer_update_list e s.head).1 },
       (timer_update_list e s.head).2) := by
  simp [timer_update, h]

/-- `timer_update` on an inactive system does nothing. -/
theorem timer_update_inactive (e : Nat) (s : TimerSystem) (h : s.running = false) :
    timer_update e (some s) = (some s, []) := by
  simp [timer_update, h]

/-- An id that no node of the input list carries never appears among the
fired ids. -/
theorem timer_update_list_fired_count_zero (e : Nat) (l : List Timer) (i : Nat)
    (h : ∀ u ∈ l, u.id ≠ i) : (timer_update_list e l).2.count i = 0 := by
  rw [List.count_eq_zero]
  intro hmem
  obtain ⟨u, hu, hui, -⟩ := timer_update_list_fired_mem e l i hmem
  exact h u hu hui


/-! ### Claim theorems -/

/-- C9: calling `timer_system_init` on an already-initialized system
returns `true` and is a no-op: the timer list, the `next_id` counter and
the `running` flag are left exactly as they were. -/
theorem timer_system_init_idempotent (s : TimerSystem) :
    timer_system_init (some s) = (true, some s) := rfl

/-- C8: `timer_create` with a `NULL` callback or a zero interval, or on an
uninitialized system, returns 0 and leaves the whole global state (hence
`timer_count`, the timer list and `next_id`) unchanged; a `timer_create`
whose preconditions hold increases `timer_count` by exactly 1. -/
theorem timer_create_spec (interval callback arg : Nat) (rep : Bool) :
    timer_create interval callback arg rep none = (0, none)
    ∧ (∀ s : TimerSystem, callback = 0 ∨ interval = 0 →
        timer_create interval callback arg rep (some s) = (0, some s))
    ∧ (∀ s : TimerSystem, callback ≠ 0 → interval ≠ 0 →
        timer_count (timer_create interval callback arg rep (some s)).2
          = timer_count (some s) + 1) := by
  refine ⟨rfl, ?_, ?_⟩
  · intro s h
    rcases h with h | h <;> simp [timer_create, h]
  · intro s hc hi
    simp [timer_create, hc, hi, timer_count]

/-- Witness for C8: a zero-interval create fails and changes nothing; a
valid create bumps the count. -/
theorem timer_create_spec_witness :
    timer_create 0 7 0 false (some ⟨[], 1, true⟩) = (0, some ⟨[], 1, true⟩)
    ∧ timer_count (timer_create 5 7 0 false (some ⟨[], 1, true⟩)).2
        = timer_count (some ⟨[], 1, true⟩) + 1 :=
  ⟨(timer_create_spec 0 7 0 false).2.1 ⟨[], 1, true⟩ (Or.inr rfl),
   (timer_create_spec 5 7 0 false).2.2 ⟨[], 1, true⟩ (by decide) (by decide)⟩

/-- C7: `timer_start` returns `false` precisely when the system is `NULL`,
when no timer carries the requested id, or when the (first) timer with
that id is already `TIMER_RUNNING` — and in all of these cases the state
is unchanged; otherwise it sets exactly that timer's state to
`TIMER_RUNNING`, changes nothing else, and returns `true`. -/
theorem timer_start_spec (id : Nat) :
    timer_start id none = (false, none)
    ∧ (∀ s : TimerSystem, (∀ t ∈ s.head, t.id ≠ id) →
        timer_start id (some s) = (false, some s))
    ∧ (∀ s : TimerSystem, ∀ l₁ l₂ : List Timer, ∀ t : Timer,
        s.head = l₁ ++ t :: l₂ → t.id = id → (∀ u ∈ l₁, u.id ≠ id) →
        (t.state = TIMER_RUNNING → timer_start id (some s) = (false, some s))
        ∧ (t.state ≠ TIMER_RUNNING →
            timer_start id (some s) =
              (true, some { s with
                head := l₁ ++ { t with state := TIMER_RUNNING } :: l₂ }))) := by
  refine ⟨rfl, ?_, ?_⟩
  · intro s h
    simp [timer_start, timer_start_list_not_found id s.head h]
  · intro s l₁ l₂ t hhead ht h₁
    constructor
    · intro hs
      have hfound : timer_start_list id s.head = (false, s.head) := by
        rw [hhead, timer_start_list_found id l₁ l₂ t h₁ ht,
          if_neg (not_not_intro hs)]
      simp [timer_start, hfound]
    · intro hs
      have hfound : timer_start_list id s.head =
          (true, l₁ ++ { t with state := TIMER_RUNNING } :: l₂) := by
        rw [hhead, timer_start_list_found id l₁ l₂ t h₁ ht, if_pos hs]
      simp [timer_start, hfound]

/-- Witness for C7: starting an idle timer succeeds and makes it running;
starting an unknown id fails. -/
theorem timer_start_spec_witness :
    timer_start 1 (some ⟨[⟨1, 5, 5, false, TIMER_IDLE, 7, 0⟩], 2, true⟩)
      = (true, some ⟨[⟨1, 5, 5, false, TIMER_RUNNING, 7, 0⟩], 2, true⟩)
    ∧ timer_start 9 (some ⟨[⟨1, 5, 5, false, TIMER_IDLE, 7, 0⟩], 2, true⟩)
      = (false, some ⟨[⟨1, 5, 5, false, TIMER_IDLE, 7, 0⟩], 2, true⟩) :=
  ⟨((timer_start_spec 1).2.2 ⟨[⟨1, 5, 5, false, TIMER_IDLE, 7, 0⟩], 2, true⟩
      [] [] ⟨1, 5, 5, false, TIMER_IDLE, 7, 0⟩ rfl rfl (by simp)).2 (by decide),
   (timer_start_spec 9).2.1 ⟨[⟨1, 5, 5, false, TIMER_IDLE, 7, 0⟩], 2, true⟩
     (by decide)⟩

/-- C6: a registered timer whose state is not `TIMER_RUNNING`
(`TIMER_IDLE`, `TIMER_PAUSED` or `TIMER_COMPLETED`) is left completely
unchanged by `timer_update`, whatever the elapsed value: it is still in
the list with the same record (same `remaining`, same state) and its
callback is not invoked. -/
theorem timer_update_untouched (elapsed : Nat) (s : TimerSystem)
    (l₁ l₂ : List Timer) (t : Timer)
    (hhead : s.head = l₁ ++ t :: l₂) (hs : t.state ≠ TIMER_RUNNING)
    (hid : ∀ u ∈ l₁ ++ l₂, u.id ≠ t.id) :
    ∃ l₁' l₂' : List Timer,
      (timer_update elapsed (some s)).1 = some { s with head := l₁' ++ t :: l₂' }
      ∧ (timer_update elapsed (some s)).2.count t.id = 0 := by
  by_cases hrun : s.running = true
  · refine ⟨(timer_update_list elapsed l₁).1, (timer_update_list elapsed l₂).1,
      ?_, ?_⟩
    · rw [timer_update_active elapsed s hrun]
      simp only [hhead, timer_update_list_middle,
        timer_update_list_not_running elapsed t hs]
      rfl
    · rw [timer_update_active elapsed s hrun]
      simp only [hhead, timer_update_list_middle,
        timer_update_list_not_running elapsed t hs]
      simp [List.count_append,
        timer_update_list_fired_count_zero elapsed l₁ t.id
          (fun u hu => hid u (List.mem_append_left _ hu)),
        timer_update_list_fired_count_zero elapsed l₂ t.id
          (fun u hu => hid u (List.mem_append_right _ hu))]
  · refine ⟨l₁, l₂, ?_, ?_⟩
    · rw [timer_update_inactive elapsed s (by simpa using hrun), ← hhead]
    · rw [timer_update_inactive elapsed s (by simpa using hrun)]
      simp

/-- Witness for C6: a paused timer survives a large update untouched and
its callback does not fire. -/
theorem timer_update_untouched_witness :
    ∃ l₁' l₂' : List Timer,
      (timer_update 1000
          (some ⟨[⟨1, 5, 5, false, TIMER_PAUSED, 7, 0⟩], 2, true⟩)).1
        = some { (⟨[⟨1, 5, 5, false, TIMER_PAUSED, 7, 0⟩], 2, true⟩ :
            TimerSystem) with
            head := l₁' ++ ⟨1, 5, 5, false, TIMER_PAUSED, 7, 0⟩ :: l₂' }
      ∧ (timer_update 1000
          (some ⟨[⟨1, 5, 5, false, TIMER_PAUSED, 7, 0⟩], 2, true⟩)).2.count 1
        = 0 :=
  timer_update_untouched 1000 ⟨[⟨1, 5, 5, false, TIMER_PAUSED, 7, 0⟩], 2, true⟩
    [] [] ⟨1, 5, 5, false, TIMER_PAUSED, 7, 0⟩ rfl (by decide) (by simp)

/-! ### Invariant preservation -/

theorem timer_start_list_mem (id : Nat) (l : List Timer) (u : Timer)
    (hu : u ∈ (timer_start_list id l).2) :
    ∃ t ∈ l, u.interval = t.interval ∧ u.remaining = t.remaining := by
  induction l with
  | nil => simp [timer_start_list] at hu
  | cons t ts ih =>
    by_cases ht : t.id = id
    · by_cases hs : t.state = TIMER_RUNNING
      · have hh : u = t ∨ u ∈ ts := by
          simpa [timer_start_list, ht, hs] using hu
        rcases hh with h | h
        · exact ⟨t, List.mem_cons_self t ts, by rw [h], by rw [h]⟩
        · exact ⟨u, List.mem_cons_of_mem t h, rfl, rfl⟩
      · have hh : u = { t with state := TIMER_RUNNING } ∨ u ∈ ts := by
          simpa [timer_start_list, ht, hs] using hu
        rcases hh with h | h
        · exact ⟨t, List.mem_cons_self t ts, by rw [h], by rw [h]⟩
        · exact ⟨u, List.mem_cons_of_mem t h, rfl, rfl⟩
    · have hh : u = t ∨ u ∈ (timer_start_list id ts).2 := by
        simpa [timer_start_list, ht] using hu
      rcases hh with h | h
      · exact ⟨t, List.mem_cons_self t ts, by rw [h], by rw [h]⟩
      · obtain ⟨v, hv, rest⟩ := ih h
        exact ⟨v, List.mem_cons_of_mem t hv, rest⟩

theorem timer_pause_list_mem (id : Nat) (l : List Timer) (u : Timer)
    (hu : u ∈ (timer_pause_list id l).2) :
    ∃ t ∈ l, u.interval = t.interval ∧ u.remaining = t.remaining := by
  induction l with
  | nil => simp [timer_pause_list] at hu
  | cons t ts ih =>
    by_cases ht : t.id = id
    · by_cases hs : t.state = TIMER_RUNNING
      · have hh : u = { t with state := TIMER_PAUSED } ∨ u ∈ ts := by
          simpa [timer_pause_list, ht, hs] using hu
        rcases hh with h | h
        · exact ⟨t, List.mem_cons_self t ts, by rw [h], by rw [h]⟩
        · exact ⟨u, List.mem_cons_of_mem t h, rfl, rfl⟩
      · have hh : u = t ∨ u ∈ ts := by
          simpa [timer_pause_list, ht, hs] using hu
        rcases hh with h | h
        · exact ⟨t, List.mem_cons_self t ts, by rw [h], by rw [h]⟩
        · exact ⟨u, List.mem_cons_of_mem t h, rfl, rfl⟩
    · have hh : u = t ∨ u ∈ (timer_pause_list id ts).2 := by
        simpa [timer_pause_list, ht] using hu
      rcases hh with h | h
      · exact ⟨t, List.mem_cons_self t ts, by rw [h], by rw [h]⟩
      · obtain ⟨v, hv, rest⟩ := ih h
        exact ⟨v, List.mem_cons_of_mem t hv, rest⟩

theorem timer_cancel_list_subset (id : Nat) (l : List Timer) (u : Timer)
    (hu : u ∈ (timer_cancel_list id l).2) : u ∈ l := by
  induction l with
  | nil => simp [timer_cancel_list] at hu
  | cons t ts ih =>
    by_cases ht : t.id = id
    · have h : u ∈ ts := by simpa [timer_cancel_list, ht] using hu
      exact List.mem_cons_of_mem t h
    · have hh : u = t ∨ u ∈ (timer_cancel_list id ts).2 := by
        simpa [timer_cancel_list, ht] using hu
      rcases hh with h | h
      · exact h ▸ List.mem_cons_self t ts
      · exact List.mem_cons_of_mem t (ih h)

theorem timer_update_list_kept_inv (e : Nat) (l : List Timer)
    (h : ∀ t ∈ l, 0 < t.interval ∧ 0 < t.remaining ∧ t.remaining ≤ t.interval) :
    ∀ u ∈ (timer_update_list e l).1,
      0 < u.interval ∧ 0 < u.remaining ∧ u.remaining ≤ u.interval := by
  induction l with
  | nil => simp [timer_update_list]
  | cons t ts ih =>
    have ht := h t (List.mem_cons_self t ts)
    have ih' := ih fun u hu => h u (List.mem_cons_of_mem t hu)
    intro u hu
    by_cases hs : t.state = TIMER_RUNNING
    · by_cases hr : t.remaining ≤ e
      · by_cases hrep : t.rep = true
        · have hh : u = { t with remaining := t.interval } ∨
              u ∈ (timer_update_list e ts).1 := by
            simpa [timer_update_list, hs, hr, hrep] using hu
          rcases hh with h' | h'
          · subst h'
            exact ⟨ht.1, ht.1, Nat.le_refl _⟩
          · exact ih' u h'
        · simp only [Bool.not_eq_true] at hrep
          have hh : u ∈ (timer_update_list e ts).1 := by
            simpa [timer_update_list, hs, hr, hrep] using hu
          exact ih' u hh
      · have hh : u = { t with remaining := t.remaining - e } ∨
            u ∈ (timer_update_list e ts).1 := by
          simpa [timer_update_list, hs, hr] using hu
        rcases hh with h' | h'
        · subst h'
          obtain ⟨h1, h2, h3⟩ := ht
          have hr' : e < t.remaining := Nat.lt_of_not_le hr
          refine ⟨h1, ?_, ?_⟩
          · show 0 < t.remaining - e
            omega
          · show t.remaining - e ≤ t.interval
            omega
        · exact ih' u h'
    · have hh : u = t ∨ u ∈ (timer_update_list e ts).1 := by
        simpa [timer_update_list, hs] using hu
      rcases hh with h' | h'
      · subst h'
        exact ht
      · exact ih' u h'

/-- One public call preserves the data invariant. -/
theorem timerStep_preserves {g g' : GState} (hstep : TimerStep g g')
    (ih : ∀ s : TimerSystem, g = some s → TimerInv s) :
    ∀ s : TimerSystem, g' = some s → TimerInv s := by
  cases hstep with
  | init =>
    intro s h
    cases g with
    | none =>
      have h' : (⟨[], 1, true⟩ : TimerSystem) = s := Option.some.inj h
      subst h'
      exact ⟨rfl, by simp⟩
    | some s0 =>
      have h' : s0 = s := Option.some.inj h
      subst h'
      exact ih s0 rfl
  | create i c a r =>
    intro s h
    cases g with
    | none => exact absurd h (by simp [timer_create])
    | some s0 =>
      have hinv := ih s0 rfl
      by_cases hca : c = 0 ∨ i = 0
      · rw [show (timer_create i c a r (some s0)).2 = some s0 by
          rcases hca with h' | h' <;> simp [timer_create, h']] at h
        have h' : s0 = s := Option.some.inj h
        subst h'
        exact hinv
      · push_neg at hca
        rw [show (timer_create i c a r (some s0)).2 = some { s0 with
            head := ⟨s0.next_id, i, i, r, TIMER_IDLE, c, a⟩ :: s0.head,
            next_id := (s0.next_id + 1) % 2 ^ 32 } by
          simp [timer_create, hca.1, hca.2]] at h
        have h' := Option.some.inj h
        subst h'
        refine ⟨hinv.1, ?_⟩
        intro t ht
        rcases List.mem_cons.mp ht with h' | h'
        · subst h'
          have hi : 0 < i := Nat.pos_of_ne_zero hca.2
          exact ⟨hi, hi, Nat.le_refl _⟩
        · exact hinv.2 t h'
  | start id =>
    intro s h
    cases g with
    | none => exact absurd h (by simp [timer_start])
    | some s0 =>
      have hinv := ih s0 rfl
      have h' := Option.some.inj h
      subst h'
      refine ⟨hinv.1, ?_⟩
      intro u hu
      obtain ⟨t, ht, hi, hre⟩ := timer_start_list_mem id s0.head u hu
      rw [hi, hre]
      exact hinv.2 t ht
  | pause id =>
    intro s h
    cases g with
    | none => exact absurd h (by simp [timer_pause])
    | some s0 =>
      have hinv := ih s0 rfl
      have h' := Option.some.inj h
      subst h'
      refine ⟨hinv.1, ?_⟩
      intro u hu
      obtain ⟨t, ht, hi, hre⟩ := timer_pause_list_mem id s0.head u hu
      rw [hi, hre]
      exact hinv.2 t ht
  | cancel id =>
    intro s h
    cases g with
    | none => exact absurd h (by simp [timer_cancel])
    | some s0 =>
      have hinv := ih s0 rfl
      have h' := Option.some.inj h
      subst h'
      exact ⟨hinv.1, fun u hu =>
        hinv.2 u (timer_cancel_list_subset id s0.head u hu)⟩
  | update e =>
    intro s h
    cases g with
    | none => exact absurd h (by simp [timer_update])
    | some s0 =>
      have hinv := ih s0 rfl
      rw [timer_update_active e s0 hinv.1] at h
      have h' := Option.some.inj h
      subst h'
      exact ⟨hinv.1, timer_update_list_kept_inv e s0.head hinv.2⟩
  | destroy =>
    intro s h
    exact absurd h (by simp [timer_system_destroy])

/-- Every reachable initialized state satisfies the data invariant. -/
theorem timer_reachable_inv {g : GState} (hg : TimerReachable g) :
    ∀ s : TimerSystem, g = some s → TimerInv s := by
  induction hg with
  | base =>
    intro s h
    exact absurd h (by simp)
  | step hr hstep ih =>
    exact timerStep_preserves hstep ih

/-- C5: in every reachable initialized state, every registered timer has
`0 < remaining` and `remaining ≤ interval`; in particular the guarded
subtraction `remaining -= elapsed` of `timer_update` — performed only when
`remaining > elapsed` — never underflows (the `Nat` difference inverts the
subtraction exactly). -/
theorem timer_remaining_bounds (s : TimerSystem)
    (hg : TimerReachable (some s)) :
    (∀ t ∈ s.head, 0 < t.remaining ∧ t.remaining ≤ t.interval)
    ∧ (∀ e : Nat, ∀ t ∈ s.head, t.state = TIMER_RUNNING → ¬ t.remaining ≤ e →
        t.remaining - e + e = t.remaining) := by
  have hinv := timer_reachable_inv hg s rfl
  constructor
  · intro t ht
    exact ⟨(hinv.2 t ht).2.1, (hinv.2 t ht).2.2⟩
  · intro e t ht _ hre
    exact Nat.sub_add_cancel (Nat.le_of_lt (Nat.lt_of_not_le hre))

/-- Witness for C5: the state reached by `init; create(5, cb, one-shot)`
contains one timer, with `0 < remaining ≤ interval`. -/
theorem timer_remaining_bounds_witness :
    0 < (Timer.mk 1 5 5 false TIMER_IDLE 7 0).remaining
    ∧ (Timer.mk 1 5 5 false TIMER_IDLE 7 0).remaining
        ≤ (Timer.mk 1 5 5 false TIMER_IDLE 7 0).interval :=
  (timer_remaining_bounds ⟨[⟨1, 5, 5, false, TIMER_IDLE, 7, 0⟩], 2, true⟩
      (TimerReachable.step
        (TimerReachable.step TimerReachable.base (TimerStep.init none))
        (TimerStep.create 5 7 0 false (some ⟨[], 1, true⟩)))).1
    ⟨1, 5, 5, false, TIMER_IDLE, 7, 0⟩ (List.mem_singleton_self _)

/-- On a list of timers with positive `remaining`, a zero-elapsed pass
changes nothing and fires nothing. -/
theorem timer_update_list_zero (l : List Timer)
    (h : ∀ t ∈ l, 0 < t.remaining) : timer_update_list 0 l = (l, []) := by
  induction l with
  | nil => rfl
  | cons t ts ih =>
    have ht := h t (List.mem_cons_self t ts)
    have ih' := ih fun u hu => h u (List.mem_cons_of_mem t hu)
    have hr : ¬ t.remaining ≤ 0 := by omega
    by_cases hs : t.state = TIMER_RUNNING
    · have hstep : timer_update_list 0 (t :: ts) =
          ({ t with remaining := t.remaining - 0 } :: (timer_update_list 0 ts).1,
           (timer_update_list 0 ts).2) := by
        simp [timer_update_list, hs, hr]
      rw [hstep, ih']
      simp
    · simp [timer_update_list, hs, ih']

/-- C10: on any reachable global state, `timer_update 0` is the identity:
no callback fires, no timer is removed and every timer's `remaining` and
state are unchanged. -/
theorem timer_update_zero_id (g : GState) (hg : TimerReachable g) :
    timer_update 0 g = (g, []) := by
  cases g with
  | none => rfl
  | some s =>
    have hinv := timer_reachable_inv hg s rfl
    rw [timer_update_active 0 s hinv.1,
        timer_update_list_zero s.head fun t ht => (hinv.2 t ht).2.1]

/-- Witness for C10: `timer_update 0` right after initialization returns
the state unchanged. -/
theorem timer_update_zero_id_witness :
    timer_update 0 (some ⟨[], 1, true⟩) = (some ⟨[], 1, true⟩, []) :=
  timer_update_zero_id (some ⟨[], 1, true⟩)
    (TimerReachable.step TimerReachable.base (TimerStep.init none))

/-- A pass over a list without expiring one-shot running timers keeps the
list length. -/
theorem timer_update_list_length_stable (e : Nat) (l : List Timer)
    (h : ∀ u ∈ l, ¬ (u.state = TIMER_RUNNING ∧ u.remaining ≤ e ∧ u.rep = false)) :
    (timer_update_list e l).1.length = l.length := by
  induction l with
  | nil => rfl
  | cons t ts ih =>
    have ht := h t (List.mem_cons_self t ts)
    have ih' := ih fun u hu => h u (List.mem_cons_of_mem t hu)
    by_cases hs : t.state = TIMER_RUNNING
    · by_cases hr : t.remaining ≤ e
      · have hrep : t.rep = true := by
          cases hrepc : t.rep with
          | false => exact absurd ⟨hs, hr, hrepc⟩ ht
          | true => rfl
        simp [timer_update_list, hs, hr, hrep, ih']
      · simp [timer_update_list, hs, hr, ih']
    · simp [timer_update_list, hs, ih']

/-- C1 counterexample: a registry with two expired one-shot running timers.
For the first timer all hypotheses of the claim hold (`Running`,
`repeat = false`, `remaining = 5 ≤ 10 = elapsed`), but one `timer_update`
removes both timers, so `timer_count` drops from 2 to 0 — not by 1 as the
claim states. -/
theorem timer_update_oneshot_count_cex :
    ((⟨1, 5, 5, false, TIMER_RUNNING, 7, 0⟩ : Timer).state = TIMER_RUNNING
      ∧ (⟨1, 5, 5, false, TIMER_RUNNING, 7, 0⟩ : Timer).rep = false
      ∧ (⟨1, 5, 5, false, TIMER_RUNNING, 7, 0⟩ : Timer).remaining ≤ 10)
    ∧ timer_count (timer_update 10 (some ⟨[⟨1, 5, 5, false, TIMER_RUNNING, 7, 0⟩,
        ⟨2, 5, 5, false, TIMER_RUNNING, 8, 0⟩], 3, true⟩)).1 = 0
    ∧ timer_count (some ⟨[⟨1, 5, 5, false, TIMER_RUNNING, 7, 0⟩,
        ⟨2, 5, 5, false, TIMER_RUNNING, 8, 0⟩], 3, true⟩) = 2
    ∧ timer_count (timer_update 10 (some ⟨[⟨1, 5, 5, false, TIMER_RUNNING, 7, 0⟩,
        ⟨2, 5, 5, false, TIMER_RUNNING, 8, 0⟩], 3, true⟩)).1
      ≠ timer_count (some ⟨[⟨1, 5, 5, false, TIMER_RUNNING, 7, 0⟩,
        ⟨2, 5, 5, false, TIMER_RUNNING, 8, 0⟩], 3, true⟩) - 1 := by
  decide

/-- C1 (amended): for a registered `TIMER_RUNNING` one-shot timer `t` with
a unique id, on an active system: `timer_update e` with `e < remaining`
keeps `t` in place, still one-shot `TIMER_RUNNING` with
`remaining := remaining - e`, and does not invoke its callback; with
`e ≥ remaining` it invokes `t`'s callback exactly once and removes `t`
from the list, and `timer_count` decreases by exactly 1 provided no other
one-shot running timer expires in the same call (each expired one-shot
contributes its own decrement, as the counterexample shows). -/
theorem timer_update_oneshot (e : Nat) (s : TimerSystem) (l₁ l₂ : List Timer)
    (t : Timer) (hrun : s.running = true) (hhead : s.head = l₁ ++ t :: l₂)
    (hstate : t.state = TIMER_RUNNING) (hrep : t.rep = false)
    (hid : ∀ u ∈ l₁ ++ l₂, u.id ≠ t.id) :
    (¬ t.remaining ≤ e →
      (timer_update e (some s)).1 = some { s with head :=
          (timer_update_list e l₁).1 ++
            ({ t with remaining := t.remaining - e } ::
              (timer_update_list e l₂).1) }
      ∧ (timer_update e (some s)).2.count t.id = 0)
    ∧ (t.remaining ≤ e →
      (timer_update e (some s)).1 = some { s with head :=
          (timer_update_list e l₁).1 ++ (timer_update_list e l₂).1 }
      ∧ (timer_update e (some s)).2.count t.id = 1
      ∧ (∀ u ∈ (timer_update_list e l₁).1 ++ (timer_update_list e l₂).1,
          u.id ≠ t.id)
      ∧ ((∀ u ∈ l₁ ++ l₂,
            ¬ (u.state = TIMER_RUNNING ∧ u.remaining ≤ e ∧ u.rep = false)) →
          timer_count (timer_update e (some s)).1
            = timer_count (some s) - 1)) := by
  have hf₁ := timer_update_list_fired_count_zero e l₁ t.id
    (fun u hu => hid u (List.mem_append_left _ hu))
  have hf₂ := timer_update_list_fired_count_zero e l₂ t.id
    (fun u hu => hid u (List.mem_append_right _ hu))
  constructor
  · intro hre
    constructor
    · rw [timer_update_active e s hrun]
      simp only [hhead, timer_update_list_middle,
        timer_update_list_ticking e t hstate hre]
      rfl
    · rw [timer_update_active e s hrun]
      simp only [hhead, timer_update_list_middle,
        timer_update_list_ticking e t hstate hre]
      simp [List.count_append, hf₁, hf₂]
  · intro hre
    have hsing := timer_update_list_fire_once e t hstate hre hrep
    refine ⟨?_, ?_, ?_, ?_⟩
    · rw [timer_update_active e s hrun]
      simp only [hhead, timer_update_list_middle, hsing]
      rfl
    · rw [timer_update_active e s hrun]
      simp only [hhead, timer_update_list_middle, hsing]
      simp [List.count_append, hf₁, hf₂]
    · intro u hu
      rcases List.mem_append.mp hu with h | h
      · obtain ⟨v, hv, hvid⟩ := timer_update_list_kept_mem e l₁ u h
        rw [hvid]
        exact hid v (List.mem_append_left _ hv)
      · obtain ⟨v, hv, hvid⟩ := timer_update_list_kept_mem e l₂ u h
        rw [hvid]
        exact hid v (List.mem_append_right _ hv)
    · intro hothers
      rw [timer_update_active e s hrun]
      have hl₁ := timer_update_list_length_stable e l₁
        (fun u hu => hothers u (List.mem_append_left _ hu))
      have hl₂ := timer_update_list_length_stable e l₂
        (fun u hu => hothers u (List.mem_append_right _ hu))
      simp only [hhead, timer_update_list_middle, hsing]
      simp [timer_count, hhead, hl₁, hl₂]

/-- Witness for C1: a lone expired one-shot running timer fires exactly
once and the count drops from 1 to 0. -/
theorem timer_update_oneshot_witness :
    (timer_update 10
        (some ⟨[⟨1, 5, 5, false, TIMER_RUNNING, 7, 0⟩], 2, true⟩)).2.count 1 = 1
    ∧ timer_count (timer_update 10
        (some ⟨[⟨1, 5, 5, false, TIMER_RUNNING, 7, 0⟩], 2, true⟩)).1
      = timer_count (some ⟨[⟨1, 5, 5, false, TIMER_RUNNING, 7, 0⟩], 2, true⟩)
          - 1 := by
  have h := (timer_update_oneshot 10
      ⟨[⟨1, 5, 5, false, TIMER_RUNNING, 7, 0⟩], 2, true⟩ [] []
      ⟨1, 5, 5, false, TIMER_RUNNING, 7, 0⟩ rfl rfl rfl rfl
      (by simp)).2 (by decide)
  exact ⟨h.2.1, h.2.2.2 (by simp)⟩

/-- C2 counterexample: a registry holding the repeating timer of the claim
plus an expired one-shot running timer.  The repeating timer re-arms as the
claim says, but the same `timer_update` call removes the one-shot, so
`timer_count` drops from 2 to 1 instead of staying unchanged. -/
theorem timer_update_repeating_count_cex :
    ((⟨1, 5, 5, true, TIMER_RUNNING, 7, 0⟩ : Timer).state = TIMER_RUNNING
      ∧ (⟨1, 5, 5, true, TIMER_RUNNING, 7, 0⟩ : Timer).rep = true
      ∧ (⟨1, 5, 5, true, TIMER_RUNNING, 7, 0⟩ : Timer).remaining ≤ 10)
    ∧ timer_count (timer_update 10 (some ⟨[⟨1, 5, 5, true, TIMER_RUNNING, 7, 0⟩,
        ⟨2, 5, 5, false, TIMER_RUNNING, 8, 0⟩], 3, true⟩)).1 = 1
    ∧ timer_count (some ⟨[⟨1, 5, 5, true, TIMER_RUNNING, 7, 0⟩,
        ⟨2, 5, 5, false, TIMER_RUNNING, 8, 0⟩], 3, true⟩) = 2
    ∧ timer_count (timer_update 10 (some ⟨[⟨1, 5, 5, true, TIMER_RUNNING, 7, 0⟩,
        ⟨2, 5, 5, false, TIMER_RUNNING, 8, 0⟩], 3, true⟩)).1
      ≠ timer_count (some ⟨[⟨1, 5, 5, true, TIMER_RUNNING, 7, 0⟩,
        ⟨2, 5, 5, false, TIMER_RUNNING, 8, 0⟩], 3, true⟩) := by
  decide

/-- C2 (amended): for a registered `TIMER_RUNNING` repeating timer `t`
with a unique id on an active system, `timer_update e` with
`e ≥ remaining` invokes `t`'s callback exactly once and leaves `t`
registered at its position with `remaining = interval` and all other
fields (including state `TIMER_RUNNING`) unchanged; `timer_count` is
unchanged provided no one-shot running timer expires in the same call. -/
theorem timer_update_repeating (e : Nat) (s : TimerSystem) (l₁ l₂ : List Timer)
    (t : Timer) (hrun : s.running = true) (hhead : s.head = l₁ ++ t :: l₂)
    (hstate : t.state = TIMER_RUNNING) (hrep : t.rep = true)
    (hre : t.remaining ≤ e)
    (hid : ∀ u ∈ l₁ ++ l₂, u.id ≠ t.id) :
    (timer_update e (some s)).1 = some { s with head :=
        (timer_update_list e l₁).1 ++
          ({ t with remaining := t.interval } :: (timer_update_list e l₂).1) }
    ∧ (timer_update e (some s)).2.count t.id = 1
    ∧ ((∀ u ∈ l₁ ++ l₂,
          ¬ (u.state = TIMER_RUNNING ∧ u.remaining ≤ e ∧ u.rep = false)) →
        timer_count (timer_update e (some s)).1 = timer_count (some s)) := by
  have hf₁ := timer_update_list_fired_count_zero e l₁ t.id
    (fun u hu => hid u (List.mem_append_left _ hu))
  have hf₂ := timer_update_list_fired_count_zero e l₂ t.id
    (fun u hu => hid u (List.mem_append_right _ hu))
  have hsing := timer_update_list_fire_rearm e t hstate hre hrep
  refine ⟨?_, ?_, ?_⟩
  · rw [timer_update_active e s hrun]
    simp only [hhead, timer_update_list_middle, hsing]
    rfl
  · rw [timer_update_active e s hrun]
    simp only [hhead, timer_update_list_middle, hsing]
    simp [List.count_append, hf₁, hf₂]
  · intro hothers
    rw [timer_update_active e s hrun]
    have hl₁ := timer_update_list_length_stable e l₁
      (fun u hu => hothers u (List.mem_append_left _ hu))
    have hl₂ := timer_update_list_length_stable e l₂
      (fun u hu => hothers u (List.mem_append_right _ hu))
    simp only [hhead, timer_update_list_middle, hsing]
    simp [timer_count, hhead, hl₁, hl₂]

/-- Witness for C2: a lone expired repeating timer fires exactly once and
the count stays 1. -/
theorem timer_update_repeating_witness :
    (timer_update 5
        (some ⟨[⟨1, 5, 5, true, TIMER_RUNNING, 7, 0⟩], 2, true⟩)).2.count 1 = 1
    ∧ timer_count (timer_update 5
        (some ⟨[⟨1, 5, 5, true, TIMER_RUNNING, 7, 0⟩], 2, true⟩)).1
      = timer_count (some ⟨[⟨1, 5, 5, true, TIMER_RUNNING, 7, 0⟩], 2, true⟩) := by
  have h := timer_update_repeating 5
    ⟨[⟨1, 5, 5, true, TIMER_RUNNING, 7, 0⟩], 2, true⟩ [] []
    ⟨1, 5, 5, true, TIMER_RUNNING, 7, 0⟩ rfl rfl rfl rfl (by decide) (by simp)
  exact ⟨h.2.1, h.2.2 (by simp)⟩

/-- State shape after `n` iterated valid creates: the system exists, holds
`n` timers, is active, and its `next_id` is `(1 + n) % 2^32` — the
`uint32_t` counter wraps after `2^32 - 1` creates. -/
theorem createManyState_spec (n : Nat) :
    ∃ s : TimerSystem, createManyState n = some s
      ∧ s.next_id = (1 + n) % 2 ^ 32 ∧ s.head.length = n ∧ s.running = true := by
  induction n with
  | zero =>
    exact ⟨⟨[], 1, true⟩, rfl, by norm_num, rfl, rfl⟩
  | succ n ih =>
    obtain ⟨s, hs, hnid, hlen, hrun⟩ := ih
    have hstep : createManyState (n + 1)
        = (timer_create 1 1 0 false (createManyState n)).2 :=
      Function.iterate_succ_apply' _ n _
    rw [hstep, hs]
    refine ⟨⟨⟨s.next_id, 1, 1, false, TIMER_IDLE, 1, 0⟩ :: s.head,
             (s.next_id + 1) % 2 ^ 32, s.running⟩, ?_, ?_, ?_, ?_⟩
    · simp [timer_create]
    · show (s.next_id + 1) % 2 ^ 32 = (1 + (n + 1)) % 2 ^ 32
      rw [hnid, Nat.mod_add_mod]
      congr 1
    · simp [hlen]
    · exact hrun

/-- C4 counterexample: `next_id` is a `uint32_t` and wraps.  Within one
registry lifetime the first create returns id 1; create number 2^32 still
inserts a timer (`timer_count` goes up by 1, i.e. the create succeeds) yet
returns id 0; and create number 2^32 + 1 returns id 1 again — the id of
the very first create — so ids of successful creates are neither always
non-zero nor unique over the registry's whole lifetime. -/
theorem timer_create_id_wrap_cex :
    (timer_create 1 1 0 false (createManyState 0)).1 = 1
    ∧ (timer_create 1 1 0 false (createManyState (2 ^ 32 - 1))).1 = 0
    ∧ timer_count (timer_create 1 1 0 false (createManyState (2 ^ 32 - 1))).2
        = timer_count (createManyState (2 ^ 32 - 1)) + 1
    ∧ (timer_create 1 1 0 false (createManyState (2 ^ 32))).1 = 1 := by
  obtain ⟨s1, hs1, hnid1, hlen1, hrun1⟩ := createManyState_spec (2 ^ 32 - 1)
  obtain ⟨s2, hs2, hnid2, hlen2, hrun2⟩ := createManyState_spec (2 ^ 32)
  refine ⟨rfl, ?_, ?_, ?_⟩
  · rw [hs1]
    have : s1.next_id = 0 := by
      rw [hnid1]
      norm_num
    simp [timer_create, this]
  · rw [hs1]
    simp [timer_create, timer_count]
  · rw [hs2]
    have : s2.next_id = 1 := by
      rw [hnid2]
      norm_num [Nat.add_mod]
    simp [timer_create, this]

/-- The lifetime invariant behind C4: along one registry lifetime the
system stays initialized, `next_id` equals `(1 + k) % 2^32` where `k` is
the number of successful creates so far, and — before the counter wraps —
the ids handed out are exactly `k, k-1, ..., 1`. -/
theorem lifeReach_ids {g : GState} {ids : List Nat} (h : LifeReach g ids) :
    ∃ s : TimerSystem, g = some s ∧ s.next_id = (1 + ids.length) % 2 ^ 32
      ∧ (ids.length < 2 ^ 32 → ids = List.iota ids.length) := by
  induction h with
  | base =>
    exact ⟨⟨[], 1, true⟩, rfl, by norm_num, by simp⟩
  | @init g0 ids0 hprev ih =>
    obtain ⟨s0, hs0, hnid, hids⟩ := ih
    subst hs0
    exact ⟨s0, rfl, hnid, hids⟩
  | @createOk g0 ids0 i c a r hcount hprev ih =>
    obtain ⟨s0, hs0, hnid, hids⟩ := ih
    subst hs0
    by_cases hca : c = 0 ∨ i = 0
    · exfalso
      have hsame : timer_create i c a r (some s0) = (0, some s0) := by
        rcases hca with h' | h' <;> simp [timer_create, h']
      rw [hsame] at hcount
      simp at hcount
    · push_neg at hca
      have hcr : timer_create i c a r (some s0) =
          (s0.next_id, some { s0 with
            head := ⟨s0.next_id, i, i, r, TIMER_IDLE, c, a⟩ :: s0.head,
            next_id := (s0.next_id + 1) % 2 ^ 32 }) := by
        simp [timer_create, hca.1, hca.2]
      rw [hcr]
      refine ⟨_, rfl, ?_, ?_⟩
      · show (s0.next_id + 1) % 2 ^ 32 = _
        rw [hnid, Nat.mod_add_mod]
        simp only [List.length_cons]
        congr 1
      · simp only [List.length_cons]
        intro hlt
        have hn := hids (by omega)
        have hid1 : s0.next_id = ids0.length + 1 := by
          rw [hnid, Nat.mod_eq_of_lt (by omega)]
          omega
        rw [hid1, List.iota_succ]
        exact congrArg (List.cons (ids0.length + 1)) hn
  | @start g0 ids0 id hprev ih =>
    obtain ⟨s0, hs0, hnid, hids⟩ := ih
    subst hs0
    exact ⟨_, rfl, hnid, hids⟩
  | @pause g0 ids0 id hprev ih =>
    obtain ⟨s0, hs0, hnid, hids⟩ := ih
    subst hs0
    exact ⟨_, rfl, hnid, hids⟩
  | @cancel g0 ids0 id hprev ih =>
    obtain ⟨s0, hs0, hnid, hids⟩ := ih
    subst hs0
    exact ⟨_, rfl, hnid, hids⟩
  | @update g0 ids0 e hprev ih =>
    obtain ⟨s0, hs0, hnid, hids⟩ := ih
    subst hs0
    by_cases hrun : s0.running = true
    · rw [timer_update_active e s0 hrun]
      exact ⟨_, rfl, hnid, hids⟩
    · rw [timer_update_inactive e s0 (by simpa using hrun)]
      exact ⟨_, rfl, hnid, hids⟩

/-- C4 (amended): within one registry lifetime, as long as fewer than 2^32
successful creates have occurred, every id returned by a successful
`timer_create` is non-zero and all such ids are pairwise distinct —
including ids of timers cancelled or removed earlier.  (Once the
`uint32_t` `next_id` wraps after 2^32 - 1 creates, id 0 is returned and
earlier ids are reused, as the counterexample shows.) -/
theorem timer_create_ids_distinct {g : GState} {ids : List Nat}
    (h : LifeReach g ids) (hlen : ids.length < 2 ^ 32) :
    (∀ i ∈ ids, i ≠ 0) ∧ ids.Nodup := by
  obtain ⟨s, -, -, hids⟩ := lifeReach_ids h
  rw [hids hlen]
  constructor
  · intro i hi
    rw [List.mem_iota] at hi
    omega
  · exact List.nodup_iota _

/-- Witness for C4 (amended): after one successful create the id list is
`[1]` — non-zero and duplicate-free. -/
theorem timer_create_ids_distinct_witness :
    ((1 : Nat) ≠ 0) ∧ ([1] : List Nat).Nodup := by
  have hl : LifeReach (timer_create 5 7 0 false (timer_system_init none).2).2
      [(timer_create 5 7 0 false (timer_system_init none).2).1] :=
    LifeReach.createOk 5 7 0 false (by decide) LifeReach.base
  have h2 := timer_create_ids_distinct hl (by norm_num)
  exact ⟨h2.1 1 (by decide), h2.2⟩

/-! ### The traversal of `timer_update` visits every node exactly once -/

theorem hlookup_hset_self (h : Heap) (a : Nat) (n : Node) :
    hlookup (hset h a n) a = some n := by
  simp [hset, hlookup]

theorem hlookup_hset_ne (h : Heap) (a b : Nat) (n : Node) (hne : a ≠ b) :
    hlookup (hset h a n) b = hlookup h b := by
  simp [hset, hlookup, hne]

theorem hlookup_herase_ne (h : Heap) (a b : Nat) (hne : a ≠ b) :
    hlookup (herase h a) b = hlookup h b := by
  induction h with
  | nil => rfl
  | cons p h ih =>
    obtain ⟨c, n⟩ := p
    by_cases hc : c = a
    · subst hc
      simp [herase, hlookup, hne, ih]
    · by_cases hb : c = b
      · subst hb
        simp [herase, hlookup, hc]
      · simp [herase, hlookup, hc, hb, ih]

/-- A chain only looks at the heap on its own addresses. -/
theorem ChainT_congr {h h' : Heap} {cur : Option Nat} {as : List Nat}
    {ts : List Timer} (hch : ChainT h cur as ts)
    (hag : ∀ b ∈ as, hlookup h' b = hlookup h b) : ChainT h' cur as ts := by
  induction hch with
  | nil => exact ChainT.nil
  | @cons a n as0 ts0 hl hch ih =>
    exact ChainT.cons (by rw [hag a (List.mem_cons_self a as0), hl])
      (ih fun b hb => hag b (List.mem_cons_of_mem a hb))

theorem update_loop_cons_not_running (e fuel : Nat) (h : Heap)
    (hd prev : Option Nat) (a : Nat) (n : Node) (fs tr : List Nat)
    (hl : hlookup h a = some n) (hs : n.state ≠ TIMER_RUNNING) :
    update_loop e (fuel + 1) h hd prev (some a) fs tr
      = update_loop e fuel h hd (some a) n.next fs (tr ++ [a]) := by
  simp [update_loop, hl, hs]

theorem update_loop_cons_ticking (e fuel : Nat) (h : Heap)
    (hd prev : Option Nat) (a : Nat) (n : Node) (fs tr : List Nat)
    (hl : hlookup h a = some n) (hs : n.state = TIMER_RUNNING)
    (hr : ¬ n.remaining ≤ e) :
    update_loop e (fuel + 1) h hd prev (some a) fs tr
      = update_loop e fuel (hset h a { n with remaining := n.remaining - e })
          hd (some a) n.next fs (tr ++ [a]) := by
  simp [update_loop, hl, hs, hr]

theorem update_loop_cons_rearm (e fuel : Nat) (h : Heap)
    (hd prev : Option Nat) (a : Nat) (n : Node) (fs tr : List Nat)
    (hl : hlookup h a = some n) (hs : n.state = TIMER_RUNNING)
    (hr : n.remaining ≤ e) (hrep : n.rep = true) :
    update_loop e (fuel + 1) h hd prev (some a) fs tr
      = update_loop e fuel (hset h a { n with remaining := n.interval })
          hd (some a) n.next (fs ++ [n.id]) (tr ++ [a]) := by
  simp [update_loop, hl, hs, hr, hrep]

theorem update_loop_cons_remove_head (e fuel : Nat) (h : Heap)
    (hd : Option Nat) (a : Nat) (n : Node) (fs tr : List Nat)
    (hl : hlookup h a = some n) (hs : n.state = TIMER_RUNNING)
    (hr : n.remaining ≤ e) (hrep : n.rep = false) :
    update_loop e (fuel + 1) h hd none (some a) fs tr
      = update_loop e fuel (herase h a) n.next none n.next
          (fs ++ [n.id]) (tr ++ [a]) := by
  simp [update_loop, hl, hs, hr, hrep]

theorem update_loop_cons_remove_mid (e fuel : Nat) (h : Heap)
    (hd : Option Nat) (a p : Nat) (n pn : Node) (fs tr : List Nat)
    (hl : hlookup h a = some n) (hpn : hlookup h p = some pn)
    (hs : n.state = TIMER_RUNNING) (hr : n.remaining ≤ e)
    (hrep : n.rep = false) :
    update_loop e (fuel + 1) h hd (some p) (some a) fs tr
      = update_loop e fuel (herase (hset h p { pn with next := n.next }) a)
          hd (some p) n.next (fs ++ [n.id]) (tr ++ [a]) := by
  simp [update_loop, hl, hpn, hs, hr, hrep]

/-- Main loop invariant: from any point of the pass, if the heap holds a
chain of the still-unvisited addresses `as` (payloads `ts`), the addresses
are distinct, and `prev` is a live node outside the chain, then the loop
appends exactly `as` to the visit trace — every remaining node is
evaluated exactly once, in order — and appends exactly the fired ids of
the list-level pass over `ts`. -/
theorem update_loop_spec (e : Nat) :
    ∀ (as : List Nat) (ts : List Timer) (h : Heap) (hd prev cur : Option Nat)
      (fs tr : List Nat),
      ChainT h cur as ts → as.Nodup →
      (∀ p, prev = some p → p ∉ as ∧ ∃ pn, hlookup h p = some pn) →
      (update_loop e as.length h hd prev cur fs tr).2.2.1
          = fs ++ (timer_update_list e ts).2
      ∧ (update_loop e as.length h hd prev cur fs tr).2.2.2 = tr ++ as := by
  intro as
  induction as with
  | nil =>
    intro ts h hd prev cur fs tr hch hnd hp
    cases hch with
    | nil => simp [update_loop, timer_update_list]
  | cons a rest ih =>
    intro ts h hd prev cur fs tr hch hnd hp
    cases hch with
    | @cons _ n _ ts0 hl hch =>
      obtain ⟨hna, hndr⟩ := List.nodup_cons.mp hnd
      simp only [List.length_cons]
      by_cases hs : n.state = TIMER_RUNNING
      · by_cases hr : n.remaining ≤ e
        · by_cases hrep : n.rep = true
          · -- running, expired, repeating: re-arm in place
            rw [update_loop_cons_rearm e rest.length h hd prev a n fs tr hl hs
              hr hrep]
            have hch' : ChainT (hset h a { n with remaining := n.interval })
                n.next rest ts0 :=
              ChainT_congr hch fun b hb =>
                hlookup_hset_ne h a b _ fun heq => hna (by rw [heq]; exact hb)
            have hp' : ∀ q, (some a : Option Nat) = some q →
                q ∉ rest ∧ ∃ qn,
                  hlookup (hset h a { n with remaining := n.interval }) q
                    = some qn := by
              intro q hq
              cases Option.some.inj hq
              exact ⟨hna, ⟨_, hlookup_hset_self h a _⟩⟩
            have hrec := ih ts0 _ hd (some a) n.next (fs ++ [n.id]) (tr ++ [a])
              hch' hndr hp'
            refine ⟨?_, ?_⟩
            · rw [hrec.1]
              simp [timer_update_list, node_timer, hs, hr, hrep]
            · rw [hrec.2]
              simp
          · -- running, expired, one-shot: unlink and free
            simp only [Bool.not_eq_true] at hrep
            cases prev with
            | none =>
              rw [update_loop_cons_remove_head e rest.length h hd a n fs tr hl
                hs hr hrep]
              have hch' : ChainT (herase h a) n.next rest ts0 :=
                ChainT_congr hch fun b hb =>
                  hlookup_herase_ne h a b fun heq => hna (by rw [heq]; exact hb)
              have hp' : ∀ q, (none : Option Nat) = some q →
                  q ∉ rest ∧ ∃ qn, hlookup (herase h a) q = some qn := by
                intro q hq
                cases hq
              have hrec := ih ts0 _ n.next none n.next (fs ++ [n.id])
                (tr ++ [a]) hch' hndr hp'
              refine ⟨?_, ?_⟩
              · rw [hrec.1]
                simp [timer_update_list, node_timer, hs, hr, hrep]
              · rw [hrec.2]
                simp
            | some p =>
              obtain ⟨hpr, pn, hpn⟩ := hp p rfl
              have hpa : p ≠ a := by
                intro heq
                rw [heq] at hpr
                exact hpr (List.mem_cons_self a rest)
              have hprest : p ∉ rest := fun hb => hpr (List.mem_cons_of_mem a hb)
              rw [update_loop_cons_remove_mid e rest.length h hd a p n pn fs tr
                hl hpn hs hr hrep]
              have hch' : ChainT (herase (hset h p { pn with next := n.next }) a)
                  n.next rest ts0 :=
                ChainT_congr hch fun b hb => by
                  rw [hlookup_herase_ne _ a b
                        fun heq => hna (by rw [heq]; exact hb),
                      hlookup_hset_ne h p b _
                        fun heq => hprest (by rw [heq]; exact hb)]
              have hp' : ∀ q, (some p : Option Nat) = some q →
                  q ∉ rest ∧ ∃ qn,
                    hlookup (herase (hset h p { pn with next := n.next }) a) q
                      = some qn := by
                intro q hq
                cases Option.some.inj hq
                refine ⟨hprest, ⟨{ pn with next := n.next }, ?_⟩⟩
                rw [hlookup_herase_ne _ a p fun heq => hpa heq.symm,
                    hlookup_hset_self]
              have hrec := ih ts0 _ hd (some p) n.next (fs ++ [n.id])
                (tr ++ [a]) hch' hndr hp'
              refine ⟨?_, ?_⟩
              · rw [hrec.1]
                simp [timer_update_list, node_timer, hs, hr, hrep]
              · rw [hrec.2]
                simp
        · -- running, not expired: remaining -= elapsed
          rw [update_loop_cons_ticking e rest.length h hd prev a n fs tr hl hs
            hr]
          have hch' : ChainT (hset h a { n with remaining := n.remaining - e })
              n.next rest ts0 :=
            ChainT_congr hch fun b hb =>
              hlookup_hset_ne h a b _ fun heq => hna (by rw [heq]; exact hb)
          have hp' : ∀ q, (some a : Option Nat) = some q →
              q ∉ rest ∧ ∃ qn,
                hlookup (hset h a { n with remaining := n.remaining - e }) q
                  = some qn := by
            intro q hq
            cases Option.some.inj hq
            exact ⟨hna, ⟨_, hlookup_hset_self h a _⟩⟩
          have hrec := ih ts0 _ hd (some a) n.next fs (tr ++ [a]) hch' hndr hp'
          refine ⟨?_, ?_⟩
          · rw [hrec.1]
            simp [timer_update_list, node_timer, hs, hr]
          · rw [hrec.2]
            simp
      · -- not running: skip
        rw [update_loop_cons_not_running e rest.length h hd prev a n fs tr hl hs]
        have hp' : ∀ q, (some a : Option Nat) = some q →
            q ∉ rest ∧ ∃ qn, hlookup h q = some qn := by
          intro q hq
          cases Option.some.inj hq
          exact ⟨hna, ⟨n, hl⟩⟩
        have hrec := ih ts0 h hd (some a) n.next fs (tr ++ [a]) hch hndr hp'
        refine ⟨?_, ?_⟩
        · rw [hrec.1]
          simp [timer_update_list, node_timer, hs]
        · rw [hrec.2]
          simp

/-- C3: one full pass of the `timer_update` loop (pointer-level model,
started like the C code with `prev = NULL` and `current = head`) over a
well-formed linked list evaluates every node that was in the list at the
start of the call exactly once, in list order — the visit trace equals the
address list — even though expired one-shot nodes are unlinked and freed
mid-pass; and the callbacks fired are exactly those of the list-level
specification `timer_update_list`. -/
theorem timer_update_visits_each_once (e : Nat) (h : Heap) (hd : Option Nat)
    (as : List Nat) (ts : List Timer) (hch : ChainT h hd as ts)
    (hnd : as.Nodup) :
    (update_loop e as.length h hd none hd [] []).2.2.2 = as
    ∧ (update_loop e as.length h hd none hd [] []).2.2.1
        = (timer_update_list e ts).2 := by
  obtain ⟨h1, h2⟩ := update_loop_spec e as ts h hd none hd [] [] hch hnd
    (by simp)
  exact ⟨by simpa using h2, by simpa using h1⟩

/-- Witness for C3: a three-node list whose middle node is an expired
one-shot (removed mid-pass); the loop still visits addresses 10, 11, 12
exactly once, in order. -/
theorem timer_update_visits_each_once_witness :
    (update_loop 5 3 [(10, ⟨1, 100, 50, false, TIMER_IDLE, 7, 0, some 11⟩),
        (11, ⟨2, 5, 5, false, TIMER_RUNNING, 8, 0, some 12⟩),
        (12, ⟨3, 100, 50, false, TIMER_RUNNING, 9, 0, none⟩)]
      (some 10) none (some 10) [] []).2.2.2 = [10, 11, 12] :=
  (timer_update_visits_each_once 5
    [(10, ⟨1, 100, 50, false, TIMER_IDLE, 7, 0, some 11⟩),
     (11, ⟨2, 5, 5, false, TIMER_RUNNING, 8, 0, some 12⟩),
     (12, ⟨3, 100, 50, false, TIMER_RUNNING, 9, 0, none⟩)]
    (some 10) [10, 11, 12]
    [node_timer ⟨1, 100, 50, false, TIMER_IDLE, 7, 0, some 11⟩,
     node_timer ⟨2, 5, 5, false, TIMER_RUNNING, 8, 0, some 12⟩,
     node_timer ⟨3, 100, 50, false, TIMER_RUNNING, 9, 0, none⟩]
    (ChainT.cons rfl (ChainT.cons rfl (ChainT.cons rfl ChainT.nil)))
    (by decide)).1
